import Mathlib

/-
Verification of the KCP manifest parser and validator
(src/parsers/python/kcp/parser.py, validator.py, model.py).

The Python code is shallowly embedded: dictionaries decoded from the raw
document are modelled as structures whose fields are wrapped in Option to
record key presence; Python exceptions (KeyError, ValueError) become
Except String; Python sets are modelled as lists used only through
membership, with a comment wherever iteration order of a Python set is
unspecified.
-/

namespace KCP

/-- Discriminator for Except results (models "the Python call raises"). -/
def exceptIsError {α : Type} : Except String α → Bool
  | .error _ => true
  | .ok _ => false

/-- A calendar date, modelling Python datetime.date. -/
structure SDate where
  year : Nat
  month : Nat
  day : Nat
deriving DecidableEq, Repr

/-- Gregorian leap-year rule (as used by datetime.date). -/
def isLeap (y : Nat) : Bool := (y % 4 == 0 && y % 100 != 0) || y % 400 == 0

/-- Number of days of month m in year y. -/
def daysInMonth (y m : Nat) : Nat :=
  if m = 2 then (if isLeap y then 29 else 28)
  else if m = 4 ∨ m = 6 ∨ m = 9 ∨ m = 11 then 30
  else 31

def digitVal (c : Char) : Nat := c.toNat - 48

/-- date.fromisoformat restricted to the calendar form YYYY-MM-DD that the
spec documents for date fields; returns none on any malformed string. -/
def isoParse (s : String) : Option SDate :=
  match s.data with
  | [a, b, c, d, h1, e, f, h2, g, i] =>
    if a.isDigit && b.isDigit && c.isDigit && d.isDigit && h1 == '-' &&
       e.isDigit && f.isDigit && h2 == '-' && g.isDigit && i.isDigit then
      let y := 1000 * digitVal a + 100 * digitVal b + 10 * digitVal c + digitVal d
      let m := 10 * digitVal e + digitVal f
      let dy := 10 * digitVal g + digitVal i
      if 1 ≤ y && 1 ≤ m && m ≤ 12 && 1 ≤ dy && dy ≤ daysInMonth y m then
        some ⟨y, m, dy⟩
      else none
    else none
  | _ => none

/-- A raw value found under a date-typed key of the decoded document:
either a date object produced by the document decoder, or a string still
to be parsed. Key-absent and null both decode to Option.none at the use
sites (Python dict.get returns None for both). -/
inductive DateRaw where
  | asDate (d : SDate)
  | asStr (s : String)
deriving DecidableEq, Repr

/-- parser._to_date: None passes through, date objects pass through,
strings go through date.fromisoformat (raising ValueError on failure). -/
def toDate : Option DateRaw → Except String (Option SDate)
  | none => .ok none
  | some (.asDate d) => .ok (some d)
  | some (.asStr s) =>
    match isoParse s with
    | some d => .ok (some d)
    | none => .error ("Invalid isoformat string: " ++ s)

/-- Split a character list at forward slashes. -/
def splitSlashAux : List Char → List Char → List String
  | [], acc => [String.mk acc.reverse]
  | c :: rest, acc =>
    if c = '/' then String.mk acc.reverse :: splitSlashAux rest []
    else splitSlashAux rest (c :: acc)

/-- PurePosixPath(raw).parts for a non-absolute path: split at forward
slashes and drop empty segments and "." segments (PurePosixPath collapses
repeated slashes, trailing slashes and single-dot components). -/
def posixParts (raw : String) : List String :=
  (splitSlashAux raw.data []).filter (fun seg => seg != "" && seg != ".")

/-- str.startswith with a one-character prefix: test the first character. -/
def headIs (raw : String) (c : Char) : Bool := raw.data.head? == some c

/-- parser._validate_unit_path. A None path passes through; a path
starting with a slash or backslash is rejected as non-relative; a path
whose first normalized segment is ".." is rejected as escaping the
manifest root; every other path is returned unchanged. -/
def validateUnitPath : Option String → Except String (Option String)
  | none => .ok none
  | some raw =>
    if headIs raw '/' || headIs raw '\\' then
      .error ("Unit path must be relative: " ++ raw)
    else if (posixParts raw).head? == some ".." then
      .error ("Unit path escapes manifest root: " ++ raw)
    else .ok (some raw)

/-- A value that Python types as "str or dict" (license, indexing). The
contents of the structured-object variant are never examined by the
parser or the validator, so they are not modelled. -/
inductive StrOrObj where
  | str (s : String)
  | obj
deriving DecidableEq, Repr

/-- model.KnowledgeUnit. path is Option String because the parser passes
a raw None path through unchanged. -/
structure KnowledgeUnit where
  id : String
  path : Option String
  intent : String
  scope : String
  audience : List String
  kind : Option String := none
  format : Option String := none
  content_type : Option String := none
  language : Option String := none
  license : Option StrOrObj := none
  validated : Option SDate := none
  update_frequency : Option String := none
  indexing : Option StrOrObj := none
  depends_on : List String := []
  supersedes : Option String := none
  triggers : List String := []
deriving DecidableEq, Repr

/-- model.Relationship. -/
structure Relationship where
  from_id : String
  to_id : String
  type : String
deriving DecidableEq, Repr

/-- model.KnowledgeManifest. -/
structure KnowledgeManifest where
  project : String
  version : String
  units : List KnowledgeUnit
  kcp_version : Option String := none
  updated : Option SDate := none
  language : Option String := none
  license : Option StrOrObj := none
  indexing : Option StrOrObj := none
  relationships : List Relationship := []
deriving DecidableEq, Repr

/-- A unit entry of the decoded raw document. An outer Option.none means
the key is absent. For path the inner Option distinguishes a null value
(inner none) from a string value; for the other keys a null value is not
modelled where the code treats it like the shown default. -/
structure RawUnit where
  id : Option String := none
  path : Option (Option String) := none
  intent : Option String := none
  scope : Option String := none
  audience : Option (List String) := none
  kind : Option String := none
  format : Option String := none
  content_type : Option String := none
  language : Option String := none
  license : Option StrOrObj := none
  validated : Option DateRaw := none
  update_frequency : Option String := none
  indexing : Option StrOrObj := none
  depends_on : Option (List String) := none
  supersedes : Option String := none
  triggers : Option (List String) := none
deriving DecidableEq, Repr

/-- A relationship entry of the decoded raw document (keys from, to, type). -/
structure RawRel where
  rfrom : Option String := none
  rto : Option String := none
  rtype : Option String := none
deriving DecidableEq, Repr

/-- The decoded raw document handed to parse_dict. -/
structure RawDoc where
  project : Option String := none
  version : Option String := none
  kcp_version : Option String := none
  updated : Option DateRaw := none
  language : Option String := none
  license : Option StrOrObj := none
  indexing : Option StrOrObj := none
  units : Option (List RawUnit) := none
  relationships : Option (List RawRel) := none
deriving DecidableEq, Repr

/-- Python dict subscription d[k]: raises KeyError when the key is absent. -/
def keyError {α : Type} (k : String) : Option α → Except String α
  | some v => .ok v
  | none => .error ("KeyError: " ++ k)

/-- One KnowledgeUnit constructor call of parse_dict, arguments evaluated
in source order. The optional typing fields (kind, format, content_type,
language, license, update_frequency, indexing) are NOT read from the raw
entry, exactly as in the source, which never passes them. -/
def parseUnit (u : RawUnit) : Except String KnowledgeUnit := do
  let i ← keyError "id" u.id
  let rawPath ← keyError "path" u.path
  let p ← validateUnitPath rawPath
  let it ← keyError "intent" u.intent
  let v ← toDate u.validated
  pure { id := i, path := p, intent := it,
         scope := u.scope.getD "global",
         audience := u.audience.getD [],
         validated := v,
         depends_on := u.depends_on.getD [],
         supersedes := u.supersedes,
         triggers := u.triggers.getD [] }

/-- One Relationship constructor call of parse_dict. -/
def parseRel (r : RawRel) : Except String Relationship := do
  let f ← keyError "from" r.rfrom
  let t ← keyError "to" r.rto
  let ty ← keyError "type" r.rtype
  pure ⟨f, t, ty⟩

/-- parser.parse_dict: units first, then relationships, then the manifest
constructor whose arguments (project lookup, updated date parsing) are
evaluated in source order. The manifest-level language, license and
indexing keys are not passed through, exactly as in the source. -/
def parse_dict (data : RawDoc) : Except String KnowledgeManifest := do
  let units ← (data.units.getD []).mapM parseUnit
  let relationships ← (data.relationships.getD []).mapM parseRel
  let project ← keyError "project" data.project
  let updated ← toDate data.updated
  pure { project := project, version := data.version.getD "",
         kcp_version := data.kcp_version, updated := updated,
         units := units, relationships := relationships }

/-! ## Validator: constant tables (validator.py lines 8-21).
Python sets, modelled as lists used only through membership. Where the
source renders sorted(SET) inside a message, the sorted rendering is
hard-coded at the use site with a comment. -/

def validScopes : List String := ["global", "project", "module"]

def validAudiences : List String :=
  ["human", "agent", "developer", "operator", "architect", "devops"]

def validRelationshipTypes : List String :=
  ["enables", "context", "supersedes", "contradicts"]

def validKinds : List String :=
  ["knowledge", "schema", "service", "policy", "executable"]

def validFormats : List String :=
  ["markdown", "pdf", "openapi", "json-schema", "jupyter",
   "html", "asciidoc", "rst", "vtt", "yaml", "json", "csv", "text"]

def validUpdateFrequencies : List String :=
  ["hourly", "daily", "weekly", "monthly", "rarely", "never"]

def validIndexingShorthands : List String :=
  ["open", "read-only", "no-train", "none"]

def knownKcpVersions : List String := ["0.1", "0.2", "0.3"]

/-- Character class of the id pattern [a-z0-9.-]. -/
def isIdChar (c : Char) : Bool :=
  (decide ('a' ≤ c) && decide (c ≤ 'z')) || c.isDigit || c == '.' || c == '-'

/-- re.match against the anchored pattern of lowercase letters, digits,
dots and hyphens. In Python the trailing anchor also matches just before
one final newline, so a single trailing newline is tolerated. -/
def idPatternMatch (s : String) : Bool :=
  let core := if s.data.getLast? == some '\n' then s.data.dropLast else s.data
  !core.isEmpty && core.all isIdChar

/-- Python first N characters of a string (s sliced up to n). -/
def strTake (s : String) (n : Nat) : String := String.mk (s.data.take n)

/-- Insert into a sorted list of strings (code-point order, as Python). -/
def insertSorted (a : String) : List String → List String
  | [] => [a]
  | b :: rest => if a ≤ b then a :: b :: rest else b :: insertSorted a rest

/-- Python sorted() on strings: stable ascending code-point order. -/
def pySorted : List String → List String
  | [] => []
  | a :: rest => insertSorted a (pySorted rest)

/-- Rendering of a Python list of strings inside an f-string, as produced
for sorted sets of identifiers. Python escaping of quotes or backslashes
inside the items is not modelled (no claim exercises it). -/
def pyListRepr (l : List String) : String :=
  "[" ++ String.intercalate ", " (l.map (fun s => "'" ++ s ++ "'")) ++ "]"

/-- validator.ValidationResult. -/
structure ValidationResult where
  errors : List String
  warnings : List String
deriving DecidableEq, Repr

/-- ValidationResult.is_valid: no errors. -/
def ValidationResult.is_valid (r : ValidationResult) : Bool :=
  r.errors.length == 0

/-- The constant tail of a duplicate-id warning. -/
def dupSuffix : String := "': duplicate 'id' (first occurrence takes precedence)"

/-- The duplicate-id warning for unit id i. -/
def dupWarning (i : String) : String := "unit '" ++ i ++ dupSuffix

/-- Errors and warnings contributed by one unit of the validation loop
(validator.py lines 111-188), given the manifest-wide id set and the ids
seen so far. An empty id contributes one error and skips every other
per-unit check (the continue on line 115). The path-existence branch is
absent because this embedding models validate with manifest_dir = None. -/
def unitFindings (unitIds seen : List String) (u : KnowledgeUnit) :
    List String × List String :=
  if u.id = "" then (["unit: 'id' is required"], [])
  else
    let p := "unit '" ++ u.id ++ "'"
    let dupW := if seen.contains u.id then [dupWarning u.id] else []
    let idFmtW :=
      if !idPatternMatch u.id then
        [p ++ ": 'id' should contain only lowercase a-z, digits, hyphens, and dots"]
      else []
    let pathE :=
      if u.path = none ∨ u.path = some "" then [p ++ ": 'path' is required"] else []
    let intentE := if u.intent = "" then [p ++ ": 'intent' is required"] else []
    let scopeE :=
      if u.scope = "" then [p ++ ": 'scope' is required"]
      else if !validScopes.contains u.scope then
        -- sorted(VALID_SCOPES) renders as the literal list below
        [p ++ ": 'scope' must be one of ['global', 'module', 'project'], got '"
           ++ u.scope ++ "'"]
      else []
    let invalidAud :=
      pySorted (u.audience.filter (fun a => !validAudiences.contains a)).dedup
    let audW :=
      if invalidAud.isEmpty then []
      else [p ++ ": unknown audience value(s): " ++ pyListRepr invalidAud]
    let kindW :=
      match u.kind with
      | some k =>
        if !validKinds.contains k then
          [p ++ ": unknown 'kind' value '" ++ k ++ "'"]
        else []
      | none => []
    let fmtW :=
      match u.format with
      | some f =>
        if !validFormats.contains f then
          [p ++ ": unknown 'format' value '" ++ f ++ "'"]
        else []
      | none => []
    let updW :=
      match u.update_frequency with
      | some f =>
        if !validUpdateFrequencies.contains f then
          [p ++ ": unknown 'update_frequency' value '" ++ f ++ "'"]
        else []
      | none => []
    let idxW :=
      match u.indexing with
      | some (.str s) =>
        if !validIndexingShorthands.contains s then
          [p ++ ": unknown 'indexing' shorthand '" ++ s ++ "'"]
        else []
      | _ => []
    let depW :=
      (u.depends_on.filter (fun d => !unitIds.contains d)).map
        (fun d => p ++ ": 'depends_on' references unknown unit '" ++ d ++ "'")
    let trigCountW :=
      if u.triggers.length > 20 then
        [p ++ ": more than 20 triggers (" ++ toString u.triggers.length
           ++ "); excess will be ignored"]
      else []
    let trigLenW :=
      (u.triggers.filter (fun t => t.length > 60)).map
        (fun t => p ++ ": trigger '" ++ strTake t 30 ++ "...' exceeds 60 characters")
    (pathE ++ intentE ++ scopeE,
     dupW ++ idFmtW ++ audW ++ kindW ++ fmtW ++ updW ++ idxW ++ depW
       ++ trigCountW ++ trigLenW)

/-- The unit loop of validate: fold over units accumulating the seen-id
set (a Python set, used only through membership, so modelled by cons). -/
def validateUnitsAux (unitIds : List String) :
    List KnowledgeUnit → List String → List String × List String
  | [], _ => ([], [])
  | u :: rest, seen =>
    let f := unitFindings unitIds seen u
    let seen' := if u.id = "" then seen else u.id :: seen
    let r := validateUnitsAux unitIds rest seen'
    (f.1 ++ r.1, f.2 ++ r.2)

/-- Warnings contributed by one relationship (validator.py lines 190-199). -/
def relFindings (unitIds : List String) (r : Relationship) : List String :=
  let p := "relationship '" ++ r.from_id ++ "' -> '" ++ r.to_id ++ "'"
  (if !unitIds.contains r.from_id then
    [p ++ ": 'from' references unknown unit '" ++ r.from_id ++ "'"] else [])
  ++ (if !unitIds.contains r.to_id then
    [p ++ ": 'to' references unknown unit '" ++ r.to_id ++ "'"] else [])
  -- sorted(VALID_RELATIONSHIP_TYPES) renders as the literal list below
  ++ (if !validRelationshipTypes.contains r.type then
    [p ++ ": 'type' must be one of ['context', 'contradicts', 'enables', 'supersedes'], got '"
       ++ r.type ++ "'"] else [])

/-! ## Cycle detection (validator._detect_cycles).
The Python recursion is embedded with explicit fuel; dfsVisit consumes one
unit of fuel per entered node. A node is entered only while unvisited, so
fuel equal to the number of nodes is always enough (proved below for the
termination claim). The write-only path_set argument of the source has no
observable effect and is not carried. -/

/-- The DFS state: the three-valued visit mark per node (0 unvisited,
1 on the current path, 2 completed) and the accumulated cycle edges. -/
structure DfsSt where
  mark : String → Nat
  edges : List (String × String)

/-- The dependency loop inside dfs: for each dep, a mark of 1 records a
cycle-closing edge, a mark of 0 recurses via the callback, and a mark of
2 is skipped. -/
def dfsDepsW (visit : String → DfsSt → Option DfsSt) (node : String) :
    List String → DfsSt → Option DfsSt
  | [], st => some st
  | dep :: rest, st =>
    if st.mark dep = 1 then
      dfsDepsW visit node rest ⟨st.mark, st.edges ++ [(node, dep)]⟩
    else if st.mark dep = 0 then
      match visit dep st with
      | none => none
      | some st' => dfsDepsW visit node rest st'
    else dfsDepsW visit node rest st

/-- validator dfs: mark the node 1, walk its dependencies, mark it 2. -/
def dfsVisit (adj : String → List String) : Nat → String → DfsSt → Option DfsSt
  | 0, _, _ => none
  | fuel + 1, node, st =>
    match dfsDepsW (dfsVisit adj fuel) node (adj node)
        ⟨fun x => if x = node then 1 else st.mark x, st.edges⟩ with
    | none => none
    | some st2 => some ⟨fun x => if x = node then 2 else st2.mark x, st2.edges⟩

/-- The outer loop of _detect_cycles: dfs from every still-unvisited node. -/
def topLoop (adj : String → List String) (fuel : Nat) :
    List String → DfsSt → Option DfsSt
  | [], st => some st
  | uid :: rest, st =>
    if st.mark uid = 0 then
      match dfsVisit adj fuel uid st with
      | none => none
      | some st' => topLoop adj fuel rest st'
    else topLoop adj fuel rest st

def unitIdsOf (units : List KnowledgeUnit) : List String :=
  units.map (fun u => u.id)

/-- The adjacency built by _detect_cycles: one dict assignment per unit in
order, so for duplicate ids the LAST unit wins; dangling dependencies
(targets outside the id set) are dropped. -/
def adjOf (units : List KnowledgeUnit) (n : String) : List String :=
  match (units.filter (fun u => u.id == n)).getLast? with
  | some u => u.depends_on.filter (fun d => (unitIdsOf units).contains d)
  | none => []

/-- _detect_cycles with the fuel bookkeeping exposed: none only if the
fuel (number of distinct ids) were insufficient, which never happens.
Python iterates the node set in unspecified hash order; the model fixes
the order produced by dedup, and every property proved about the result
(membership of self-edges, emptiness) is insensitive to that order. -/
def detectCyclesOpt (units : List KnowledgeUnit) : Option (List (String × String)) :=
  let nodes := (unitIdsOf units).dedup
  match topLoop (adjOf units) nodes.length nodes ⟨fun _ => 0, []⟩ with
  | some st => some st.edges
  | none => none

/-- validator._detect_cycles. -/
def detectCycles (units : List KnowledgeUnit) : List (String × String) :=
  (detectCyclesOpt units).getD []

/-- The rule set of validator.validate with manifest_dir = None (the
path-existence branch, the only filesystem access, is disabled then). -/
def validateCore (manifest : KnowledgeManifest) : ValidationResult :=
  let unitIds := unitIdsOf manifest.units
  let kcpW :=
    match manifest.kcp_version with
    | none => ["manifest: 'kcp_version' not declared; assuming 0.3"]
    | some v =>
      -- Python "if not manifest.kcp_version" is also true for the empty string
      if v = "" then ["manifest: 'kcp_version' not declared; assuming 0.3"]
      -- max(KNOWN_KCP_VERSIONS) renders as 0.3
      else if !knownKcpVersions.contains v then
        ["manifest: unknown kcp_version '" ++ v ++ "'; processing as 0.3"]
      else []
  let rootE :=
    (if manifest.project = "" then ["manifest: 'project' is required"] else [])
    ++ (if manifest.units.isEmpty then ["manifest: 'units' must not be empty"] else [])
  let ur := validateUnitsAux unitIds manifest.units []
  let relW := (manifest.relationships.map (relFindings unitIds)).flatten
  ⟨rootE ++ ur.1, kcpW ++ ur.2 ++ relW⟩

/-- validator.validate with manifest_dir = None. Line 91 of the source
invokes _detect_cycles and discards its result before running the rules;
the unused let mirrors that call. -/
def validate (manifest : KnowledgeManifest) : ValidationResult :=
  let _cycles := detectCycles manifest.units
  validateCore manifest

/-- Models that validate only reads the manifest: the Python body contains
no assignment to any field of the manifest or its units, so the call is
translated as a pure function handing the manifest back unchanged next to
its result. -/
def validateRun (m : KnowledgeManifest) : KnowledgeManifest × ValidationResult :=
  (m, validate m)

instance instDecEqExcept {ε α : Type} [DecidableEq ε] [DecidableEq α] :
    DecidableEq (Except ε α) := fun x y =>
  match x, y with
  | .error a, .error b =>
    if h : a = b then .isTrue (h ▸ rfl)
    else .isFalse (fun hh => by cases hh; exact h rfl)
  | .error _, .ok _ => .isFalse (fun hh => by cases hh)
  | .ok _, .error _ => .isFalse (fun hh => by cases hh)
  | .ok a, .ok b =>
    if h : a = b then .isTrue (h ▸ rfl)
    else .isFalse (fun hh => by cases hh; exact h rfl)

/-! ## Correctness of the DFS embedding: the fuel never runs out, marks
evolve monotonically, and self-loops always produce their edge. -/

/-- Number of still-unvisited nodes. -/
def zc (nodes : List String) (st : DfsSt) : Nat :=
  (nodes.filter (fun x => st.mark x == 0)).length

/-- Every node with a self-loop that has been completed has its
cycle-closing self-edge recorded. -/
def Rinv (adj : String → List String) (st : DfsSt) : Prop :=
  ∀ x, x ∈ adj x → st.mark x = 2 → (x, x) ∈ st.edges

/-- How one DFS step transforms the state: marks of 1 and 2 are
preserved, no lasting 1 appears, edges only grow, marks change only
to 1 or 2, and the self-loop invariant is preserved. -/
structure StepOut (adj : String → List String) (st st' : DfsSt) : Prop where
  pres1 : ∀ x, st.mark x = 1 → st'.mark x = 1
  pres2 : ∀ x, st.mark x = 2 → st'.mark x = 2
  nonew1 : ∀ x, st'.mark x = 1 → st.mark x = 1
  edgeMono : ∀ e, e ∈ st.edges → e ∈ st'.edges
  range : ∀ x, st'.mark x = st.mark x ∨ st'.mark x = 1 ∨ st'.mark x = 2
  rinvp : Rinv adj st → Rinv adj st'

lemma StepOut.refl (adj : String → List String) (st : DfsSt) :
    StepOut adj st st :=
  ⟨fun _ h => h, fun _ h => h, fun _ h => h, fun _ h => h,
   fun _ => Or.inl rfl, id⟩

lemma StepOut.trans {adj : String → List String} {s t u : DfsSt}
    (a : StepOut adj s t) (b : StepOut adj t u) : StepOut adj s u := by
  refine ⟨fun x h => b.pres1 x (a.pres1 x h),
          fun x h => b.pres2 x (a.pres2 x h),
          fun x h => a.nonew1 x (b.nonew1 x h),
          fun e h => b.edgeMono e (a.edgeMono e h),
          ?_, fun h => b.rinvp (a.rinvp h)⟩
  intro x
  rcases b.range x with hb | hb | hb
  · rw [hb]; exact a.range x
  · exact Or.inr (Or.inl hb)
  · exact Or.inr (Or.inr hb)

lemma filterLenLe {α : Type} (l : List α) (p q : α → Bool)
    (h : ∀ x, q x = true → p x = true) :
    (l.filter q).length ≤ (l.filter p).length := by
  induction l with
  | nil => simp
  | cons a t ih =>
    by_cases hqa : q a = true
    · have hpa := h a hqa
      rw [List.filter_cons_of_pos hqa, List.filter_cons_of_pos hpa]
      simp only [List.length_cons]
      omega
    · rw [List.filter_cons_of_neg hqa]
      by_cases hpa : p a = true
      · rw [List.filter_cons_of_pos hpa]
        simp only [List.length_cons]
        omega
      · rw [List.filter_cons_of_neg hpa]
        exact ih

lemma filterLenLt {α : Type} (l : List α) (p q : α → Bool)
    (h : ∀ x, q x = true → p x = true) (n : α) (hn : n ∈ l)
    (hp : p n = true) (hq : q n = false) :
    (l.filter q).length < (l.filter p).length := by
  induction l with
  | nil => cases hn
  | cons a t ih =>
    rcases List.mem_cons.mp hn with rfl | hmem
    · have hle := filterLenLe t p q h
      rw [List.filter_cons_of_pos hp, List.filter_cons_of_neg (by simp [hq])]
      simp only [List.length_cons]
      omega
    · by_cases hqa : q a = true
      · have hpa := h a hqa
        rw [List.filter_cons_of_pos hqa, List.filter_cons_of_pos hpa]
        simp only [List.length_cons]
        have := ih hmem
        omega
      · rw [List.filter_cons_of_neg hqa]
        by_cases hpa : p a = true
        · rw [List.filter_cons_of_pos hpa]
          simp only [List.length_cons]
          have := ih hmem
          omega
        · rw [List.filter_cons_of_neg hpa]
          exact ih hmem

lemma zcLe (nodes : List String) (st : DfsSt) : zc nodes st ≤ nodes.length :=
  List.length_filter_le _ _

lemma zcPos (nodes : List String) (st : DfsSt) (n : String)
    (hn : n ∈ nodes) (h0 : st.mark n = 0) : 0 < zc nodes st := by
  have hmem : n ∈ nodes.filter (fun x => st.mark x == 0) :=
    List.mem_filter.mpr ⟨hn, by simp [h0]⟩
  exact List.length_pos_of_mem hmem

lemma zc_zero_imp (nodes : List String) (st st' : DfsSt)
    (h : ∀ x, st'.mark x = 0 → st.mark x = 0) :
    zc nodes st' ≤ zc nodes st := by
  apply filterLenLe
  intro x hx
  simp only [beq_iff_eq] at hx ⊢
  exact h x hx

/-- The guarantee of one successful dfs call on an unvisited node. -/
def VisitSpec (adj : String → List String) (nodes : List String)
    (fuel : Nat) (visit : String → DfsSt → Option DfsSt) : Prop :=
  ∀ node st, node ∈ nodes → st.mark node = 0 → zc nodes st ≤ fuel →
    ∃ st', visit node st = some st' ∧ StepOut adj st st'
      ∧ zc nodes st' < zc nodes st ∧ st'.mark node = 2

lemma depsSpec (adj : String → List String) (nodes : List String)
    (fuel : Nat) (visit : String → DfsSt → Option DfsSt)
    (hv : VisitSpec adj nodes fuel visit) :
    ∀ (deps : List String) (node : String) (st : DfsSt),
      (∀ d ∈ deps, d ∈ nodes) → zc nodes st ≤ fuel →
      ∃ st', dfsDepsW visit node deps st = some st'
        ∧ StepOut adj st st' ∧ zc nodes st' ≤ zc nodes st
        ∧ (∀ x ∈ deps, st.mark x = 1 → (node, x) ∈ st'.edges) := by
  intro deps
  induction deps with
  | nil =>
    intro node st _ _
    exact ⟨st, rfl, StepOut.refl adj st, le_refl _, by simp⟩
  | cons dep rest ih =>
    intro node st hsub hfuel
    have hsubr : ∀ d ∈ rest, d ∈ nodes :=
      fun d hd => hsub d (List.mem_cons_of_mem _ hd)
    by_cases h1 : st.mark dep = 1
    · have hzc :
          zc nodes ⟨st.mark, st.edges ++ [(node, dep)]⟩ = zc nodes st := rfl
      obtain ⟨st', heq, hso, hz, hedge⟩ :=
        ih node ⟨st.mark, st.edges ++ [(node, dep)]⟩ hsubr (hzc ▸ hfuel)
      have hstep : StepOut adj st ⟨st.mark, st.edges ++ [(node, dep)]⟩ :=
        ⟨fun _ h => h, fun _ h => h, fun _ h => h,
         fun e he => List.mem_append_left _ he,
         fun _ => Or.inl rfl,
         fun hR x hx h2 => List.mem_append_left _ (hR x hx h2)⟩
      refine ⟨st', by simp [dfsDepsW, h1, heq], hstep.trans hso,
        le_trans hz (le_of_eq hzc), ?_⟩
      intro x hx hm1
      rcases List.mem_cons.mp hx with rfl | hxr
      · apply hso.edgeMono
        exact List.mem_append_right _ (List.mem_singleton.mpr rfl)
      · exact hedge x hxr hm1
    · by_cases h0 : st.mark dep = 0
      · obtain ⟨st1, hveq, hso1, hzlt, _⟩ :=
          hv dep st (hsub dep (List.mem_cons_self _ _)) h0 hfuel
        obtain ⟨st', heq, hso2, hz2, hedge⟩ :=
          ih node st1 hsubr (le_of_lt (lt_of_lt_of_le hzlt hfuel))
        refine ⟨st', by simp [dfsDepsW, h1, h0, hveq, heq],
          hso1.trans hso2, le_trans hz2 (le_of_lt hzlt), ?_⟩
        intro x hx hm1
        rcases List.mem_cons.mp hx with rfl | hxr
        · exact absurd hm1 h1
        · exact hedge x hxr (hso1.pres1 x hm1)
      · obtain ⟨st', heq, hso, hz, hedge⟩ := ih node st hsubr hfuel
        refine ⟨st', by simp [dfsDepsW, h1, h0, heq], hso, hz, ?_⟩
        intro x hx hm1
        rcases List.mem_cons.mp hx with rfl | hxr
        · exact absurd hm1 h1
        · exact hedge x hxr hm1

lemma visitSpec_zero (adj : String → List String) (nodes : List String) :
    VisitSpec adj nodes 0 (dfsVisit adj 0) := by
  intro node st hn h0 hf
  have := zcPos nodes st node hn h0
  omega

lemma visitSpec_succ (adj : String → List String) (nodes : List String)
    (fuel : Nat) (hadj : ∀ n d, d ∈ adj n → d ∈ nodes)
    (ih : VisitSpec adj nodes fuel (dfsVisit adj fuel)) :
    VisitSpec adj nodes (fuel + 1) (dfsVisit adj (fuel + 1)) := by
  intro node st hn h0 hf
  have hz1 : zc nodes ⟨fun x => if x = node then 1 else st.mark x, st.edges⟩
      < zc nodes st := by
    unfold zc
    refine filterLenLt _ _ _ ?_ node hn ?_ ?_
    · intro x hx
      simp only [beq_iff_eq] at hx ⊢
      by_cases hxe : x = node
      · simp [hxe] at hx
      · simpa [hxe] using hx
    · simp [h0]
    · simp
  obtain ⟨st2, hdeq, hso, hzle, hedge⟩ :=
    depsSpec adj nodes fuel _ ih (adj node) node
      ⟨fun x => if x = node then 1 else st.mark x, st.edges⟩
      (fun d hd => hadj node d hd) (by omega)
  refine ⟨⟨fun x => if x = node then 2 else st2.mark x, st2.edges⟩,
    by simp [dfsVisit, hdeq], ?_, ?_, by simp⟩
  · refine ⟨?_, ?_, ?_, ?_, ?_, ?_⟩
    · intro x hx
      have hxe : x ≠ node := fun he => by rw [he, h0] at hx; cases hx
      have : st2.mark x = 1 := hso.pres1 x (by simp [hxe, hx])
      simp [hxe, this]
    · intro x hx
      have hxe : x ≠ node := fun he => by rw [he, h0] at hx; cases hx
      have : st2.mark x = 2 := hso.pres2 x (by simp [hxe, hx])
      simp [hxe, this]
    · intro x hx
      by_cases hxe : x = node
      · simp [hxe] at hx
      · simp only [hxe, if_false] at hx
        have := hso.nonew1 x hx
        simp only [hxe, if_false] at this
        exact this
    · intro e he
      exact hso.edgeMono e he
    · intro x
      by_cases hxe : x = node
      · exact Or.inr (Or.inr (by simp [hxe]))
      · rcases hso.range x with hr | hr | hr
        · simp only [hxe, if_false] at hr
          exact Or.inl (by simp [hxe, hr])
        · exact Or.inr (Or.inl (by simp [hxe, hr]))
        · exact Or.inr (Or.inr (by simp [hxe, hr]))
    · intro hR x hx h2
      by_cases hxe : x = node
      · subst hxe
        exact hedge x hx (by simp)
      · simp only [hxe, if_false] at h2
        have hR1 : Rinv adj
            ⟨fun y => if y = node then 1 else st.mark y, st.edges⟩ := by
          intro y hy hy2
          by_cases hye : y = node
          · simp [hye] at hy2
          · simp only [hye, if_false] at hy2
            exact hR y hy hy2
        exact hso.rinvp hR1 x hx h2
  · have hle : zc nodes ⟨fun x => if x = node then 2 else st2.mark x,
        st2.edges⟩ ≤ zc nodes st2 := by
      apply zc_zero_imp
      intro x hx
      by_cases hxe : x = node
      · simp [hxe] at hx
      · simpa [hxe] using hx
    omega

lemma visitSpec_all (adj : String → List String) (nodes : List String)
    (hadj : ∀ n d, d ∈ adj n → d ∈ nodes) :
    ∀ fuel, VisitSpec adj nodes fuel (dfsVisit adj fuel) := by
  intro fuel
  induction fuel with
  | zero => exact visitSpec_zero adj nodes
  | succ f ihf => exact visitSpec_succ adj nodes f hadj ihf

lemma topLoopSpec (adj : String → List String) (nodes : List String)
    (hadj : ∀ n d, d ∈ adj n → d ∈ nodes) :
    ∀ (l : List String) (st : DfsSt), (∀ x ∈ l, x ∈ nodes) →
      (∀ x, st.mark x = 0 ∨ st.mark x = 2) →
      ∃ st', topLoop adj nodes.length l st = some st'
        ∧ StepOut adj st st'
        ∧ (∀ x, st'.mark x = 0 ∨ st'.mark x = 2)
        ∧ (∀ uid ∈ l, st'.mark uid = 2) := by
  intro l
  induction l with
  | nil =>
    intro st _ hb
    exact ⟨st, rfl, StepOut.refl adj st, hb, by simp⟩
  | cons uid rest ih =>
    intro st hsub hb
    have hsubr : ∀ x ∈ rest, x ∈ nodes :=
      fun x hx => hsub x (List.mem_cons_of_mem _ hx)
    by_cases h0 : st.mark uid = 0
    · obtain ⟨st1, hveq, hso1, _, hmark2⟩ :=
        visitSpec_all adj nodes hadj nodes.length uid st
          (hsub uid (List.mem_cons_self _ _)) h0 (zcLe nodes st)
      have hb1 : ∀ x, st1.mark x = 0 ∨ st1.mark x = 2 := by
        intro x
        rcases hso1.range x with he | h1 | h2
        · rw [he]; exact hb x
        · exfalso
          have := hso1.nonew1 x h1
          rcases hb x with hz | ht
          · rw [this] at hz; cases hz
          · rw [this] at ht; cases ht
        · exact Or.inr h2
      obtain ⟨st', hteq, hso2, hb', hl⟩ := ih st1 hsubr hb1
      refine ⟨st', by simp [topLoop, h0, hveq, hteq],
        hso1.trans hso2, hb', ?_⟩
      intro x hx
      rcases List.mem_cons.mp hx with rfl | hr
      · exact hso2.pres2 x hmark2
      · exact hl x hr
    · have h2 : st.mark uid = 2 := (hb uid).resolve_left h0
      obtain ⟨st', hteq, hso, hb', hl⟩ := ih st hsubr hb
      refine ⟨st', by simp [topLoop, h0, hteq], hso, hb', ?_⟩
      intro x hx
      rcases List.mem_cons.mp hx with rfl | hr
      · exact hso.pres2 x h2
      · exact hl x hr

lemma adjOf_sub (units : List KnowledgeUnit) :
    ∀ n d, d ∈ adjOf units n → d ∈ (unitIdsOf units).dedup := by
  intro n d hd
  unfold adjOf at hd
  cases h : (units.filter (fun u => u.id == n)).getLast? with
  | none => rw [h] at hd; cases hd
  | some u =>
    rw [h] at hd
    rcases List.mem_filter.mp hd with ⟨_, hc⟩
    simp only [List.elem_eq_mem, decide_eq_true_eq] at hc
    exact List.mem_dedup.mpr hc

/-! ## Concrete fixtures used by individual claims. -/

/-- The unit entry of the minimal valid manifest scenario. -/
def minimalRawUnit : RawUnit :=
  { id := some "a"
    path := some (some "a.md")
    intent := some "i"
    scope := some "global"
    audience := some ["human"] }

/-- The minimal valid manifest document of the scenario in the spec. -/
def minimalRawDoc : RawDoc :=
  { project := some "p"
    units := some [minimalRawUnit] }

/-- The unit the parser builds from minimalRawUnit. -/
def minimalUnit : KnowledgeUnit :=
  { id := "a"
    path := some "a.md"
    intent := "i"
    scope := "global"
    audience := ["human"] }

/-- The manifest the parser builds from minimalRawDoc. -/
def minimalManifest : KnowledgeManifest :=
  { project := "p"
    version := ""
    units := [minimalUnit] }

/-- A unit entry carrying every optional typing field that the source
document can declare (values taken from the repository's own test data). -/
def typedRawUnit : RawUnit :=
  { id := some "api-spec"
    path := some (some "api/openapi.yaml")
    intent := some "What endpoints does the API expose?"
    scope := some "module"
    audience := some ["developer", "agent"]
    kind := some "schema"
    format := some "openapi"
    content_type := some "application/vnd.oai.openapi+yaml;version=3.1"
    language := some "en"
    license := some .obj
    update_frequency := some "monthly"
    indexing := some (.str "no-train") }

def typedRawDoc : RawDoc :=
  { project := some "p"
    units := some [typedRawUnit] }

/-- What parse_dict actually builds from typedRawUnit: every optional
typing field is dropped. -/
def typedParsedUnit : KnowledgeUnit :=
  { id := "api-spec"
    path := some "api/openapi.yaml"
    intent := "What endpoints does the API expose?"
    scope := "module"
    audience := ["developer", "agent"] }

def typedParsedManifest : KnowledgeManifest :=
  { project := "p"
    version := ""
    units := [typedParsedUnit] }

/-- A unit entry whose path key is present but holds the empty string. -/
def emptyPathRawDoc : RawDoc :=
  { project := some "p"
    units := some
      [{ id := some "a"
         path := some (some "")
         intent := some "i"
         scope := some "global"
         audience := some ["human"] }] }

def emptyPathManifest : KnowledgeManifest :=
  { project := "p"
    version := ""
    units := [{ id := "a"
                path := some ""
                intent := "i"
                scope := "global"
                audience := ["human"] }] }

/-- A unit entry whose path key is present but holds a null value. -/
def nullPathRawDoc : RawDoc :=
  { project := some "p"
    units := some
      [{ id := some "a"
         path := some none
         intent := some "i"
         scope := some "global"
         audience := some ["human"] }] }

def nullPathManifest : KnowledgeManifest :=
  { project := "p"
    version := ""
    units := [{ id := "a"
                path := none
                intent := "i"
                scope := "global"
                audience := ["human"] }] }

/-! ## C1 — path-safety check. -/

/-- C1: the path check on a string fails exactly when the string starts
with a slash or backslash or its first normalized segment is the
parent-directory marker; every other string, including mid-path traversal
and plain relative paths, is returned unchanged. -/
theorem claim_C1 :
    (∀ raw : String,
      exceptIsError (validateUnitPath (some raw)) =
        (headIs raw '/' || headIs raw '\\' ||
          (posixParts raw).head? == some ".."))
    ∧ (∀ raw : String,
        (headIs raw '/' || headIs raw '\\' ||
          (posixParts raw).head? == some "..") = false →
        validateUnitPath (some raw) = .ok (some raw))
    ∧ validateUnitPath (some "a/../../b") = .ok (some "a/../../b")
    ∧ validateUnitPath (some "docs/guide.md") = .ok (some "docs/guide.md")
    ∧ validateUnitPath (some "/etc/passwd") =
        .error "Unit path must be relative: /etc/passwd"
    ∧ validateUnitPath (some "\\x") = .error "Unit path must be relative: \\x"
    ∧ validateUnitPath (some "../x") =
        .error "Unit path escapes manifest root: ../x" := by
  refine ⟨?_, ?_, by decide, by decide, by decide, by decide, by decide⟩
  · intro raw
    by_cases h1 : (headIs raw '/' || headIs raw '\\') = true
    · simp [validateUnitPath, h1, exceptIsError]
    · by_cases h2 : ((posixParts raw).head? == some "..") = true
      · simp [validateUnitPath, h1, h2, exceptIsError]
      · simp [validateUnitPath, h1, h2, exceptIsError]
  · intro raw h
    have h1 : (headIs raw '/' || headIs raw '\\') = false := by
      cases ho : (headIs raw '/' || headIs raw '\\') with
      | false => rfl
      | true => simp [ho] at h
    have h2 : ((posixParts raw).head? == some "..") = false := by
      cases ho : ((posixParts raw).head? == some "..") with
      | false => rfl
      | true => simp [ho] at h
    simp [validateUnitPath, h1, h2]

/-- C1 witness: the general success case applied to a concrete path. -/
theorem claim_C1_w :
    (headIs "docs/guide.md" '/' || headIs "docs/guide.md" '\\' ||
      (posixParts "docs/guide.md").head? == some "..") = false
    ∧ validateUnitPath (some "docs/guide.md") = .ok (some "docs/guide.md") :=
  ⟨by decide, claim_C1.2.1 "docs/guide.md" (by decide)⟩

/-! ## C3 — the parser drops the optional typing fields. -/

/-- C3 (code bug): evaluated at a document whose unit declares every
optional typing field, parse_dict succeeds but returns a unit whose kind,
format, content_type, language, license, update_frequency and indexing
are all absent, contradicting the repository's own parser tests. -/
theorem claim_C3 :
    parse_dict typedRawDoc = .ok typedParsedManifest
    ∧ typedRawUnit.kind = some "schema"
    ∧ typedRawUnit.format = some "openapi"
    ∧ typedRawUnit.content_type =
        some "application/vnd.oai.openapi+yaml;version=3.1"
    ∧ typedRawUnit.language = some "en"
    ∧ typedRawUnit.license = some .obj
    ∧ typedRawUnit.update_frequency = some "monthly"
    ∧ typedRawUnit.indexing = some (.str "no-train")
    ∧ typedParsedManifest.units = [typedParsedUnit]
    ∧ typedParsedUnit.kind = none
    ∧ typedParsedUnit.format = none
    ∧ typedParsedUnit.content_type = none
    ∧ typedParsedUnit.language = none
    ∧ typedParsedUnit.license = none
    ∧ typedParsedUnit.update_frequency = none
    ∧ typedParsedUnit.indexing = none := by decide

/-! ## C5 — minimal valid manifest scenario. -/

/-- C5: the minimal manifest parses, validates with no errors and exactly
the kcp_version advisory warning, and is_valid is exactly emptiness of
the errors list. -/
theorem claim_C5 :
    parse_dict minimalRawDoc = .ok minimalManifest
    ∧ (validate minimalManifest).errors = []
    ∧ (validate minimalManifest).warnings =
        ["manifest: 'kcp_version' not declared; assuming 0.3"]
    ∧ ∀ r : ValidationResult, r.is_valid = true ↔ r.errors = [] := by
  refine ⟨by decide, by decide, by decide, ?_⟩
  intro r
  simp [ValidationResult.is_valid, List.length_eq_zero]

/-! ## C9 — termination of cycle detection. -/

/-- C9: the fuel given to the DFS (the number of distinct unit ids) is
always sufficient, so _detect_cycles completes on every finite unit list,
fully cyclic graphs included, and validate (which runs it) is total. -/
theorem claim_C9 : ∀ units : List KnowledgeUnit,
    detectCyclesOpt units = some (detectCycles units) := by
  intro units
  obtain ⟨st', hteq, _, _, _⟩ :=
    topLoopSpec (adjOf units) ((unitIdsOf units).dedup) (adjOf_sub units)
      ((unitIdsOf units).dedup) ⟨fun _ => 0, []⟩
      (fun x hx => hx) (fun x => Or.inl rfl)
  simp [detectCyclesOpt, detectCycles, hteq]

/-! ## C2 — cycle tolerance. -/

/-- A unit with valid required fields, used to build cycle fixtures. -/
def cycleUnit (i : String) (deps : List String) : KnowledgeUnit :=
  { id := i
    path := some (i ++ ".md")
    intent := "intent"
    scope := "global"
    audience := ["agent"]
    depends_on := deps }

def threeCycleUnits : List KnowledgeUnit :=
  [cycleUnit "a" ["b"], cycleUnit "b" ["c"], cycleUnit "c" ["a"]]

def threeCycleManifest : KnowledgeManifest :=
  { project := "p"
    version := ""
    kcp_version := some "0.3"
    units := threeCycleUnits }

/-- Two units sharing the id a: the adjacency assignment of the second
overwrites the self-dependency of the first. -/
def dupSelfUnits : List KnowledgeUnit :=
  [cycleUnit "a" ["a"], cycleUnit "a" []]

lemma getLast?_all_eq {α : Type} (l : List α) (u : α) (hne : l ≠ [])
    (hall : ∀ x ∈ l, x = u) : l.getLast? = some u := by
  induction l with
  | nil => cases hne rfl
  | cons a t ih =>
    cases t with
    | nil =>
      rw [hall a (List.mem_cons_self _ _)]
      rfl
    | cons b t2 =>
      rw [List.getLast?_cons_cons]
      exact ih (by simp) (fun x hx => hall x (List.mem_cons_of_mem _ hx))

/-- When every unit carrying this unit's id IS this unit (no other unit
shares its id), the adjacency entry for the id is built from this unit,
so a self-dependency survives into the graph. -/
lemma adjOf_self (units : List KnowledgeUnit) (u : KnowledgeUnit)
    (hu : u ∈ units) (huniq : ∀ v ∈ units, v.id = u.id → v = u)
    (hself : u.id ∈ u.depends_on) : u.id ∈ adjOf units u.id := by
  unfold adjOf
  have hmemf : u ∈ units.filter (fun v => v.id == u.id) :=
    List.mem_filter.mpr ⟨hu, by simp⟩
  have hne : units.filter (fun v => v.id == u.id) ≠ [] :=
    List.ne_nil_of_mem hmemf
  have hall : ∀ x ∈ units.filter (fun v => v.id == u.id), x = u := by
    intro x hx
    rcases List.mem_filter.mp hx with ⟨hxm, hxe⟩
    exact huniq x hxm (by simpa using hxe)
  rw [getLast?_all_eq _ u hne hall]
  apply List.mem_filter.mpr
  refine ⟨hself, ?_⟩
  simp only [List.elem_eq_mem, decide_eq_true_eq]
  exact List.mem_map.mpr ⟨u, hu, rfl⟩

/-- C2 counterexample: with two units of the same id, the second (empty)
depends_on list overwrites the adjacency of the first, so the first
unit's self-dependency produces no edge, where the claim requires the
edge (a, a). -/
theorem claim_C2_cex :
    cycleUnit "a" ["a"] ∈ dupSelfUnits
    ∧ (cycleUnit "a" ["a"]).id ∈ (cycleUnit "a" ["a"]).depends_on
    ∧ ("a", "a") ∉ detectCycles dupSelfUnits := by decide

/-- C2 as amended: every unit whose depends_on contains its own id
yields the edge (id, id) provided no other unit shares its id (other
units may freely duplicate ids among themselves); the three-node cycle
yields at least one edge while the manifest stays valid; and validate
ignores the detection result entirely, so cycle-closing edges never
contribute errors or warnings. -/
theorem claim_C2 :
    (∀ (units : List KnowledgeUnit) (u : KnowledgeUnit),
      u ∈ units → (∀ v ∈ units, v.id = u.id → v = u) →
      u.id ∈ u.depends_on → (u.id, u.id) ∈ detectCycles units)
    ∧ detectCycles threeCycleUnits ≠ []
    ∧ (validate threeCycleManifest).is_valid = true
    ∧ (∀ m, validate m = validateCore m) := by
  refine ⟨?_, by decide, by decide, fun m => rfl⟩
  intro units u hu huniq hself
  obtain ⟨st', hteq, hso, _, hall⟩ :=
    topLoopSpec (adjOf units) ((unitIdsOf units).dedup) (adjOf_sub units)
      ((unitIdsOf units).dedup) ⟨fun _ => 0, []⟩
      (fun x hx => hx) (fun x => Or.inl rfl)
  have hR0 : Rinv (adjOf units) ⟨fun _ => 0, []⟩ := by
    intro x _ h2
    cases h2
  have hR := hso.rinvp hR0
  have hmem : u.id ∈ (unitIdsOf units).dedup :=
    List.mem_dedup.mpr (List.mem_map.mpr ⟨u, hu, rfl⟩)
  have hm2 : st'.mark u.id = 2 := hall u.id hmem
  have hedge := hR u.id (adjOf_self units u hu huniq hself) hm2
  simp only [detectCycles, detectCyclesOpt, hteq, Option.getD_some]
  exact hedge

/-- C2 witness: the amended self-loop rule applied to one self-looping
unit with a unique id. -/
theorem claim_C2_w : ("s", "s") ∈ detectCycles [cycleUnit "s" ["s"]] :=
  claim_C2.1 [cycleUnit "s" ["s"]] (cycleUnit "s" ["s"])
    (by decide) (by decide) (by decide)

/-! ## C8 — the validator only reads the manifest. -/

/-- C8: a validate call leaves the manifest unchanged, and a second call
on the returned manifest produces the same errors and warnings. -/
theorem claim_C8 : ∀ m : KnowledgeManifest,
    (validateRun m).1 = m
    ∧ (validateRun ((validateRun m).1)).2 = (validateRun m).2 :=
  fun _ => ⟨rfl, rfl⟩

/-! ## Inversion and error-propagation lemmas for the parser. -/

lemma ebind_ok {α β : Type} (a : α) (f : α → Except String β) :
    (Except.ok a >>= f) = f a := rfl

lemma ebind_err {α β : Type} (e : String) (f : α → Except String β) :
    ((Except.error e : Except String α) >>= f) = Except.error e := rfl

lemma emap_ok {α β : Type} (a : α) (f : α → β) :
    (f <$> (Except.ok a : Except String α)) = Except.ok (f a) := rfl

lemma emap_err {α β : Type} (e : String) (f : α → β) :
    (f <$> (Except.error e : Except String α)) =
      (Except.error e : Except String β) := rfl

lemma epure_isError {α : Type} (a : α) :
    exceptIsError (pure a : Except String α) = false := rfl

lemma parseUnit_ok (u : RawUnit) (ku : KnowledgeUnit)
    (h : parseUnit u = .ok ku) :
    ∃ i rp p it vd, u.id = some i ∧ u.path = some rp
      ∧ validateUnitPath rp = .ok p ∧ u.intent = some it
      ∧ toDate u.validated = .ok vd
      ∧ ku = { id := i, path := p, intent := it,
               scope := u.scope.getD "global",
               audience := u.audience.getD [],
               validated := vd,
               depends_on := u.depends_on.getD [],
               supersedes := u.supersedes,
               triggers := u.triggers.getD [] } := by
  rcases hi : u.id with _ | i
  · simp only [parseUnit, keyError, hi, ebind_err] at h
    exact Except.noConfusion h
  rcases hp : u.path with _ | rp
  · simp only [parseUnit, keyError, hi, hp, ebind_ok, ebind_err] at h
    exact Except.noConfusion h
  rcases hv : validateUnitPath rp with e | p
  · simp only [parseUnit, keyError, hi, hp, hv, ebind_ok, ebind_err] at h
    exact Except.noConfusion h
  rcases hit : u.intent with _ | it
  · simp only [parseUnit, keyError, hi, hp, hv, hit, ebind_ok, ebind_err] at h
    exact Except.noConfusion h
  rcases hd : toDate u.validated with e | vd
  · simp only [parseUnit, keyError, hi, hp, hv, hit, hd, ebind_ok, ebind_err,
      emap_err] at h
    exact Except.noConfusion h
  simp only [parseUnit, keyError, hi, hp, hv, hit, hd, ebind_ok, emap_ok] at h
  exact ⟨i, rp, p, it, vd, rfl, rfl, hv, rfl, rfl, (Except.ok.inj h).symm⟩

lemma mapM_isError {α β : Type} (f : α → Except String β) (l : List α) :
    exceptIsError (l.mapM f) = l.any (fun x => exceptIsError (f x)) := by
  induction l with
  | nil => rfl
  | cons a as ih =>
    rw [List.mapM_cons]
    rcases hfa : f a with e | b
    · simp only [ebind_err]
      simp [exceptIsError, List.any_cons, hfa]
    · simp only [ebind_ok]
      rcases hm : as.mapM f with e | bs
      · simp only [ebind_err]
        rw [hm] at ih
        simp only [exceptIsError] at ih ⊢
        simp [List.any_cons, hfa, exceptIsError, ← ih]
      · simp only [ebind_ok, epure_isError]
        rw [hm] at ih
        simp only [exceptIsError] at ih
        simp [List.any_cons, hfa, exceptIsError, epure_isError, ← ih]

lemma mapM_ok_length {α β : Type} (f : α → Except String β) (l : List α)
    (bs : List β) (h : l.mapM f = .ok bs) : bs.length = l.length := by
  induction l generalizing bs with
  | nil =>
    rw [List.mapM_nil] at h
    cases (Except.ok.inj h)
    rfl
  | cons a as ih =>
    rw [List.mapM_cons] at h
    rcases hfa : f a with e | b <;> rw [hfa] at h
    · rw [ebind_err] at h
      exact Except.noConfusion h
    rw [ebind_ok] at h
    rcases hm : as.mapM f with e | cs <;> rw [hm] at h
    · rw [ebind_err] at h
      exact Except.noConfusion h
    rw [ebind_ok] at h
    cases (Except.ok.inj h)
    simp [ih cs hm]

/-! ## C4 — what makes parse_dict fail. -/

/-- The path key is present and its value fails the path-safety check. -/
def unitPathUnsafe (p : Option (Option String)) : Bool :=
  match p with
  | some r => exceptIsError (validateUnitPath r)
  | none => false

/-- The date-typed value cannot be converted by _to_date. -/
def dateBad (v : Option DateRaw) : Bool := exceptIsError (toDate v)

/-- A unit entry on which the parser raises: missing id, path or intent
key, an unsafe path, or an unparseable validated date. -/
def unitEntryFails (u : RawUnit) : Bool :=
  u.id.isNone || u.path.isNone || unitPathUnsafe u.path
    || u.intent.isNone || dateBad u.validated

/-- A relationship entry on which the parser raises: missing from, to or
type key. -/
def relEntryFails (r : RawRel) : Bool :=
  r.rfrom.isNone || r.rto.isNone || r.rtype.isNone

/-- The failure condition of parse_dict, stated directly on the raw
document: missing project key, a failing unit entry, a failing
relationship entry, or an unparseable updated date. A missing units or
relationships container is NOT a failure (it defaults to the empty list). -/
def parseFailCond (d : RawDoc) : Bool :=
  d.project.isNone || (d.units.getD []).any unitEntryFails
    || (d.relationships.getD []).any relEntryFails || dateBad d.updated

lemma parseUnit_isError (u : RawUnit) :
    exceptIsError (parseUnit u) = unitEntryFails u := by
  rcases hi : u.id with _ | i
  · simp [parseUnit, keyError, unitEntryFails, hi, ebind_err, exceptIsError]
  rcases hp : u.path with _ | rp
  · simp [parseUnit, keyError, unitEntryFails, hi, hp, ebind_ok, ebind_err,
      exceptIsError]
  rcases hv : validateUnitPath rp with e | p
  · simp [parseUnit, keyError, unitEntryFails, unitPathUnsafe, hi, hp, hv,
      ebind_ok, ebind_err, exceptIsError]
  rcases hit : u.intent with _ | it
  · simp [parseUnit, keyError, unitEntryFails, unitPathUnsafe, hi, hp, hv,
      hit, ebind_ok, ebind_err, exceptIsError]
  rcases hd : toDate u.validated with e | vd
  · simp [parseUnit, keyError, unitEntryFails, unitPathUnsafe, dateBad, hi,
      hp, hv, hit, hd, ebind_ok, ebind_err, emap_err, exceptIsError]
  · simp [parseUnit, keyError, unitEntryFails, unitPathUnsafe, dateBad, hi,
      hp, hv, hit, hd, ebind_ok, emap_ok, exceptIsError]

lemma parseRel_isError (r : RawRel) :
    exceptIsError (parseRel r) = relEntryFails r := by
  rcases hf : r.rfrom with _ | f <;> rcases ht : r.rto with _ | t <;>
    rcases hy : r.rtype with _ | y <;>
      simp [parseRel, keyError, relEntryFails, hf, ht, hy, ebind_ok,
        ebind_err, emap_ok, emap_err, exceptIsError]

/-- C4 counterexample: a document with no units container at all parses
successfully to a manifest with an empty unit list, where the claim
requires a parse failure. -/
theorem claim_C4_cex :
    (RawDoc.units { project := some "p" }) = none
    ∧ parse_dict { project := some "p" } =
        .ok { project := "p", version := "", units := [] } := by decide

/-- C4 as amended: parse_dict fails exactly when the project key is
absent, or a unit entry lacks id, path or intent or has an unsafe path or
a bad validated date, or a relationship entry lacks from, to or type, or
the updated date is bad; an absent units container defaults to no units;
on success version defaults to the empty string, kcp_version to absent,
and depends_on and triggers to empty sequences. Failure is an Except
error, so the caller receives no partial manifest. -/
theorem claim_C4 :
    (∀ d : RawDoc, exceptIsError (parse_dict d) = parseFailCond d)
    ∧ (∀ d m, parse_dict d = .ok m →
        m.version = d.version.getD "" ∧ m.kcp_version = d.kcp_version
          ∧ m.units.length = (d.units.getD []).length)
    ∧ (∀ u ku, parseUnit u = .ok ku →
        ku.depends_on = u.depends_on.getD []
          ∧ ku.triggers = u.triggers.getD []) := by
  refine ⟨?_, ?_, ?_⟩
  · intro d
    have hu : (d.units.getD []).any unitEntryFails
        = exceptIsError ((d.units.getD []).mapM parseUnit) := by
      rw [mapM_isError]
      simp only [parseUnit_isError]
    have hr : (d.relationships.getD []).any relEntryFails
        = exceptIsError ((d.relationships.getD []).mapM parseRel) := by
      rw [mapM_isError]
      simp only [parseRel_isError]
    rw [parseFailCond, hu, hr]
    rcases hmu : (d.units.getD []).mapM parseUnit with e | units
    · simp only [parse_dict, hmu, ebind_err, exceptIsError, Bool.or_true,
        Bool.true_or]
    rcases hmr : (d.relationships.getD []).mapM parseRel with e | rels
    · simp only [parse_dict, hmu, hmr, ebind_ok, ebind_err, exceptIsError,
        Bool.or_true, Bool.true_or, Bool.or_false, Bool.false_or]
    rcases hpj : d.project with _ | pj
    · simp only [parse_dict, keyError, hmu, hmr, hpj, ebind_ok, ebind_err,
        exceptIsError, Option.isNone_none, Bool.or_true, Bool.true_or,
        Bool.or_false, Bool.false_or]
    rcases hdt : toDate d.updated with e | up
    · simp only [parse_dict, keyError, dateBad, hmu, hmr, hpj, hdt,
        ebind_ok, ebind_err, emap_err, exceptIsError, Option.isNone_some,
        Bool.or_true, Bool.true_or, Bool.or_false, Bool.false_or]
    · simp only [parse_dict, keyError, dateBad, hmu, hmr, hpj, hdt,
        ebind_ok, emap_ok, exceptIsError, Option.isNone_some, Bool.or_true,
        Bool.true_or, Bool.or_false, Bool.false_or]
      rfl
  · intro d m h
    rcases hmu : (d.units.getD []).mapM parseUnit with e | units
    · simp only [parse_dict, hmu, ebind_err] at h
      exact Except.noConfusion h
    rcases hmr : (d.relationships.getD []).mapM parseRel with e | rels
    · simp only [parse_dict, hmu, hmr, ebind_ok, ebind_err] at h
      exact Except.noConfusion h
    rcases hpj : d.project with _ | pj
    · simp only [parse_dict, keyError, hmu, hmr, hpj, ebind_ok, ebind_err] at h
      exact Except.noConfusion h
    rcases hdt : toDate d.updated with e | up
    · simp only [parse_dict, keyError, hmu, hmr, hpj, hdt, ebind_ok,
        ebind_err, emap_err] at h
      exact Except.noConfusion h
    simp only [parse_dict, keyError, hmu, hmr, hpj, hdt, ebind_ok, emap_ok] at h
    rcases (Except.ok.inj h) with rfl
    exact ⟨rfl, rfl, mapM_ok_length parseUnit _ units hmu⟩
  · intro u ku h
    rcases parseUnit_ok u ku h with ⟨i, rp, p, it, vd, _, _, _, _, _, hku⟩
    rw [hku]
    exact ⟨rfl, rfl⟩

/-- C4 witness: the amended success clauses applied to the minimal
document and its unit entry. -/
theorem claim_C4_w :
    parse_dict minimalRawDoc = .ok minimalManifest
    ∧ minimalManifest.version = minimalRawDoc.version.getD ""
    ∧ minimalManifest.kcp_version = minimalRawDoc.kcp_version
    ∧ minimalManifest.units.length = (minimalRawDoc.units.getD []).length
    ∧ minimalUnit.depends_on = minimalRawUnit.depends_on.getD [] := by
  have h2 := claim_C4.2.1 minimalRawDoc minimalManifest (by decide)
  have h3 := claim_C4.2.2 minimalRawUnit minimalUnit (by decide)
  exact ⟨by decide, h2.1, h2.2.1, h2.2.2, h3.1⟩

/-! ## C7 — missing scope or audience keys do not fail the parse. -/

/-- A unit entry lacking both the scope and the audience key. -/
def noScopeAudRawUnit : RawUnit :=
  { id := some "a"
    path := some (some "a.md")
    intent := some "i" }

def noScopeAudRawDoc : RawDoc :=
  { project := some "p"
    units := some [noScopeAudRawUnit] }

def noScopeAudManifest : KnowledgeManifest :=
  { project := "p"
    version := ""
    units := [{ id := "a"
                path := some "a.md"
                intent := "i"
                scope := "global"
                audience := [] }] }

/-- C7 counterexample: a document whose only unit has no scope key and no
audience key parses successfully, where the claim requires a failure. -/
theorem claim_C7_cex :
    noScopeAudRawUnit.scope = none
    ∧ noScopeAudRawUnit.audience = none
    ∧ parse_dict noScopeAudRawDoc = .ok noScopeAudManifest := by decide

/-- C7 as amended: a unit entry lacking the scope key parses with scope
defaulted to global, and one lacking the audience key parses with an
empty audience; absence of these keys never fails the parse. -/
theorem claim_C7 :
    (∀ u ku, parseUnit u = .ok ku →
      ku.scope = u.scope.getD "global" ∧ ku.audience = u.audience.getD [])
    ∧ parse_dict noScopeAudRawDoc = .ok noScopeAudManifest := by
  refine ⟨?_, by decide⟩
  intro u ku h
  rcases parseUnit_ok u ku h with ⟨i, rp, p, it, vd, _, _, _, _, _, hku⟩
  rw [hku]
  exact ⟨rfl, rfl⟩

/-- C7 witness: the amended default rule applied to the concrete entry. -/
theorem claim_C7_w :
    parseUnit noScopeAudRawUnit =
      .ok { id := "a", path := some "a.md", intent := "i",
            scope := "global", audience := [] }
    ∧ ({ id := "a", path := some "a.md", intent := "i",
         scope := "global", audience := [] } : KnowledgeUnit).scope =
        noScopeAudRawUnit.scope.getD "global" :=
  ⟨by decide,
   (claim_C7.1 noScopeAudRawUnit
      { id := "a", path := some "a.md", intent := "i",
        scope := "global", audience := [] } (by decide)).1⟩

/-! ## C10 — empty or null paths pass the parser. -/

/-- C10: an empty-string or null path passes the path-safety check
unchanged, parse_dict succeeds, and only validate reports the missing
path as an error. -/
theorem claim_C10 :
    validateUnitPath (some "") = .ok (some "")
    ∧ validateUnitPath none = .ok none
    ∧ parse_dict emptyPathRawDoc = .ok emptyPathManifest
    ∧ parse_dict nullPathRawDoc = .ok nullPathManifest
    ∧ (validate emptyPathManifest).errors = ["unit 'a': 'path' is required"]
    ∧ (validate nullPathManifest).errors = ["unit 'a': 'path' is required"] := by
  decide

/-! ## C6 — duplicate and empty ids. -/

/-- Prefix test on character lists. -/
def startsList : List Char → List Char → Bool
  | [], _ => true
  | _ :: _, [] => false
  | a :: pa, b :: lb => a == b && startsList pa lb

/-- Suffix test on character lists. -/
def hasSuffix (pat l : List Char) : Bool := startsList pat.reverse l.reverse

/-- Recognizer for duplicate-id warnings: the message tail that only the
duplicate check produces (every other message of the validator ends in a
different final character, which the lemmas below exploit). -/
def isDupWarning (s : String) : Bool := hasSuffix dupSuffix.data s.data

/-- The unit ids that are repeat occurrences of an id seen earlier, in
order, skipping empty ids (which the validator rejects before its
duplicate check). -/
def repeatedOccurrences : List String → List String → List String
  | [], _ => []
  | i :: rest, seen =>
    if i = "" then repeatedOccurrences rest seen
    else (if seen.contains i then [i] else [])
      ++ repeatedOccurrences rest (i :: seen)

lemma stringDataAppend (s t : String) : (s ++ t).data = s.data ++ t.data := by
  cases s
  cases t
  rfl

lemma startsList_self_append (p t : List Char) :
    startsList p (p ++ t) = true := by
  induction p with
  | nil => rfl
  | cons a pa ih => simp [startsList, ih]

lemma startsList_head (p l : List Char) (hp : p ≠ [])
    (h : startsList p l = true) : l.head? = p.head? := by
  cases p with
  | nil => cases hp rfl
  | cons a pa =>
    cases l with
    | nil => simp [startsList] at h
    | cons b lb =>
      simp only [startsList, Bool.and_eq_true, beq_iff_eq] at h
      simp [h.1]

lemma dupWarning_isDup (i : String) : isDupWarning (dupWarning i) = true := by
  unfold dupWarning isDupWarning hasSuffix
  rw [stringDataAppend, List.reverse_append]
  exact startsList_self_append _ _

lemma not_dup_of_last (s : String) (h : s.data.getLast? ≠ some ')') :
    isDupWarning s = false := by
  unfold isDupWarning hasSuffix
  cases hs : startsList dupSuffix.data.reverse s.data.reverse with
  | false => rfl
  | true =>
    exfalso
    have hh := startsList_head _ _ (by decide) hs
    rw [List.head?_reverse] at hh
    have hd : dupSuffix.data.reverse.head? = some ')' := by decide
    exact h (hh.trans hd)

lemma isDup_concat_false (x c : String) (hc : c.data.getLast? ≠ some ')')
    (hne : c.data ≠ []) : isDupWarning (x ++ c) = false := by
  apply not_dup_of_last
  rw [stringDataAppend, List.getLast?_append_of_ne_nil _ hne]
  exact hc

lemma isDup_quote (x : String) : isDupWarning (x ++ "'") = false :=
  isDup_concat_false _ _ (by decide) (by decide)

lemma isDup_idFmt (x : String) :
    isDupWarning
      (x ++ ": 'id' should contain only lowercase a-z, digits, hyphens, and dots")
      = false :=
  isDup_concat_false _ _ (by decide) (by decide)

lemma isDup_aud (x : String) (l : List String) :
    isDupWarning (x ++ ": unknown audience value(s): " ++ pyListRepr l)
      = false := by
  apply not_dup_of_last
  rw [stringDataAppend, List.getLast?_append_of_ne_nil]
  · unfold pyListRepr
    rw [stringDataAppend, List.getLast?_append_of_ne_nil]
    · decide
    · decide
  · unfold pyListRepr
    rw [stringDataAppend]
    simp

lemma isDup_trigCount (x : String) :
    isDupWarning (x ++ "); excess will be ignored") = false :=
  isDup_concat_false _ _ (by decide) (by decide)

lemma isDup_trigLen (x : String) :
    isDupWarning (x ++ "...' exceeds 60 characters") = false :=
  isDup_concat_false _ _ (by decide) (by decide)

lemma isDup_kcpMissing :
    isDupWarning "manifest: 'kcp_version' not declared; assuming 0.3"
      = false := by decide

lemma isDup_kcpUnknown (x : String) :
    isDupWarning (x ++ "'; processing as 0.3") = false :=
  isDup_concat_false _ _ (by decide) (by decide)

lemma filter_isDup_map_eq_nil (l : List String) (f : String → String)
    (hf : ∀ d, isDupWarning (f d) = false) :
    (l.map f).filter isDupWarning = [] := by
  rw [List.filter_eq_nil_iff]
  intro a ha
  rcases List.mem_map.mp ha with ⟨d, _, rfl⟩
  simp [hf d]

lemma unitFindings_dupFilter (unitIds seen : List String)
    (u : KnowledgeUnit) :
    ((unitFindings unitIds seen u).2).filter isDupWarning
      = if u.id = "" then []
        else if seen.contains u.id then [dupWarning u.id] else [] := by
  by_cases hid : u.id = ""
  · simp [unitFindings, hid]
  · rw [if_neg hid]
    simp only [unitFindings, if_neg hid]
    simp only [List.filter_append]
    have h1 : (if seen.contains u.id then [dupWarning u.id]
        else []).filter isDupWarning
        = if seen.contains u.id then [dupWarning u.id] else [] := by
      by_cases hseen : seen.contains u.id = true
      · rw [if_pos hseen]
        simp [List.filter_cons, dupWarning_isDup]
      · rw [if_neg hseen]
        rfl
    have h2 : (if !idPatternMatch u.id then
        ["unit '" ++ u.id ++ "'" ++
          ": 'id' should contain only lowercase a-z, digits, hyphens, and dots"]
        else []).filter isDupWarning = [] := by
      by_cases hfmt : (!idPatternMatch u.id) = true
      · rw [if_pos hfmt]
        simp [List.filter_cons, isDup_idFmt]
      · rw [if_neg hfmt]
        rfl
    rw [h1, h2]
    have h3 : ∀ (lst : List String), (if lst.isEmpty then []
        else ["unit '" ++ u.id ++ "'" ++ ": unknown audience value(s): "
          ++ pyListRepr lst]).filter isDupWarning = [] := by
      intro lst
      by_cases hl : lst.isEmpty = true
      · rw [if_pos hl]
        rfl
      · rw [if_neg hl]
        simp [List.filter_cons, isDup_aud]
    rw [h3]
    have hkind : ((match u.kind with
        | some k => if !validKinds.contains k then
            ["unit '" ++ u.id ++ "'" ++ ": unknown 'kind' value '" ++ k ++ "'"]
          else []
        | none => []) : List String).filter isDupWarning = [] := by
      cases u.kind with
      | none => rfl
      | some k =>
        show ((if !validKinds.contains k then _ else []) :
          List String).filter isDupWarning = []
        by_cases hk : (!validKinds.contains k) = true
        · rw [if_pos hk]
          simp [List.filter_cons, isDup_quote]
        · rw [if_neg hk]
          rfl
    have hfmt : ((match u.format with
        | some f => if !validFormats.contains f then
            ["unit '" ++ u.id ++ "'" ++ ": unknown 'format' value '" ++ f ++ "'"]
          else []
        | none => []) : List String).filter isDupWarning = [] := by
      cases u.format with
      | none => rfl
      | some f =>
        show ((if !validFormats.contains f then _ else []) :
          List String).filter isDupWarning = []
        by_cases hk : (!validFormats.contains f) = true
        · rw [if_pos hk]
          simp [List.filter_cons, isDup_quote]
        · rw [if_neg hk]
          rfl
    have hupd : ((match u.update_frequency with
        | some f => if !validUpdateFrequencies.contains f then
            ["unit '" ++ u.id ++ "'" ++
              ": unknown 'update_frequency' value '" ++ f ++ "'"]
          else []
        | none => []) : List String).filter isDupWarning = [] := by
      cases u.update_frequency with
      | none => rfl
      | some f =>
        show ((if !validUpdateFrequencies.contains f then _ else []) :
          List String).filter isDupWarning = []
        by_cases hk : (!validUpdateFrequencies.contains f) = true
        · rw [if_pos hk]
          simp [List.filter_cons, isDup_quote]
        · rw [if_neg hk]
          rfl
    have hidx : ((match u.indexing with
        | some (.str s) => if !validIndexingShorthands.contains s then
            ["unit '" ++ u.id ++ "'" ++
              ": unknown 'indexing' shorthand '" ++ s ++ "'"]
          else []
        | _ => []) : List String).filter isDupWarning = [] := by
      cases u.indexing with
      | none => rfl
      | some v =>
        cases v with
        | obj => rfl
        | str s =>
          show ((if !validIndexingShorthands.contains s then _ else []) :
            List String).filter isDupWarning = []
          by_cases hk : (!validIndexingShorthands.contains s) = true
          · rw [if_pos hk]
            simp [List.filter_cons, isDup_quote]
          · rw [if_neg hk]
            rfl
    have hdep : ((u.depends_on.filter
          (fun d => !unitIds.contains d)).map
        (fun d => "unit '" ++ u.id ++ "'" ++
          ": 'depends_on' references unknown unit '" ++ d ++ "'")).filter
        isDupWarning = [] :=
      filter_isDup_map_eq_nil _ _ (fun d => isDup_quote _)
    have htc : ((if u.triggers.length > 20 then
        ["unit '" ++ u.id ++ "'" ++ ": more than 20 triggers ("
          ++ toString u.triggers.length ++ "); excess will be ignored"]
        else []) : List String).filter isDupWarning = [] := by
      by_cases hk : u.triggers.length > 20
      · rw [if_pos hk]
        simp [List.filter_cons, isDup_trigCount]
      · rw [if_neg hk]
        rfl
    have htl : ((u.triggers.filter (fun t => t.length > 60)).map
        (fun t => "unit '" ++ u.id ++ "'" ++ ": trigger '" ++ strTake t 30
          ++ "...' exceeds 60 characters")).filter isDupWarning = [] :=
      filter_isDup_map_eq_nil _ _ (fun t => isDup_trigLen _)
    rw [hkind, hfmt, hupd, hidx, hdep, htc, htl]
    simp

lemma validateUnitsAux_dupFilter (unitIds : List String) :
    ∀ (units : List KnowledgeUnit) (seen : List String),
      ((validateUnitsAux unitIds units seen).2).filter isDupWarning
        = (repeatedOccurrences (unitIdsOf units) seen).map dupWarning := by
  intro units
  induction units with
  | nil => intro seen; rfl
  | cons u rest ih =>
    intro seen
    simp only [validateUnitsAux, List.filter_append,
      unitFindings_dupFilter, unitIdsOf, List.map_cons, repeatedOccurrences]
    by_cases hid : u.id = ""
    · simp only [hid, if_pos rfl, List.nil_append]
      have := ih seen
      simp only [unitIdsOf] at this
      simpa [hid] using this
    · simp only [if_neg hid]
      have := ih (u.id :: seen)
      simp only [unitIdsOf] at this
      rw [this, List.map_append]
      by_cases hseen : seen.contains u.id = true
      · rw [if_pos hseen, if_pos hseen]
        simp
      · rw [if_neg hseen, if_neg hseen]
        simp

lemma relFindings_not_dup (unitIds : List String) (r : Relationship) :
    ∀ w ∈ relFindings unitIds r, isDupWarning w = false := by
  intro w hw
  unfold relFindings at hw
  rcases List.mem_append.mp hw with hw1 | hw3
  · rcases List.mem_append.mp hw1 with hw1 | hw2
    · by_cases hc : !unitIds.contains r.from_id
      · rw [if_pos hc] at hw1
        rcases List.mem_singleton.mp hw1 with rfl
        exact isDup_quote _
      · rw [if_neg hc] at hw1
        cases hw1
    · by_cases hc : !unitIds.contains r.to_id
      · rw [if_pos hc] at hw2
        rcases List.mem_singleton.mp hw2 with rfl
        exact isDup_quote _
      · rw [if_neg hc] at hw2
        cases hw2
  · by_cases hc : !validRelationshipTypes.contains r.type
    · rw [if_pos hc] at hw3
      rcases List.mem_singleton.mp hw3 with rfl
      exact isDup_quote _
    · rw [if_neg hc] at hw3
      cases hw3

lemma kcp_not_dup (v : Option String) :
    ((match v with
      | none => ["manifest: 'kcp_version' not declared; assuming 0.3"]
      | some s =>
        if s = "" then ["manifest: 'kcp_version' not declared; assuming 0.3"]
        else if !knownKcpVersions.contains s then
          ["manifest: unknown kcp_version '" ++ s ++ "'; processing as 0.3"]
        else []) : List String).filter isDupWarning = [] := by
  cases v with
  | none => simp [List.filter_cons, isDup_kcpMissing]
  | some s =>
    show ((if s = "" then
        ["manifest: 'kcp_version' not declared; assuming 0.3"]
      else if !knownKcpVersions.contains s then
        ["manifest: unknown kcp_version '" ++ s ++ "'; processing as 0.3"]
      else []) : List String).filter isDupWarning = []
    by_cases hs : s = ""
    · rw [if_pos hs]
      simp [List.filter_cons, isDup_kcpMissing]
    · rw [if_neg hs]
      by_cases hk : (!knownKcpVersions.contains s) = true
      · rw [if_pos hk]
        simp [List.filter_cons, isDup_kcpUnknown]
      · rw [if_neg hk]
        rfl

lemma validate_dupFilter (m : KnowledgeManifest) :
    (validate m).warnings.filter isDupWarning
      = (repeatedOccurrences (unitIdsOf m.units) []).map dupWarning := by
  show (validateCore m).warnings.filter isDupWarning = _
  simp only [validateCore]
  rw [List.filter_append, List.filter_append]
  rw [validateUnitsAux_dupFilter, kcp_not_dup]
  have hrel : ((m.relationships.map
      (relFindings (unitIdsOf m.units))).flatten).filter isDupWarning = [] := by
    rw [List.filter_eq_nil_iff]
    intro w hw
    rcases List.mem_flatten.mp hw with ⟨l, hl, hwl⟩
    rcases List.mem_map.mp hl with ⟨r, _, rfl⟩
    simp [relFindings_not_dup _ r w hwl]
  rw [hrel]
  simp

lemma scope_contains_ne_empty (s : String)
    (h : validScopes.contains s = true) : s ≠ "" := by
  have hmem : s = "global" ∨ s = "project" ∨ s = "module" := by
    simpa [validScopes] using h
  rcases hmem with h1 | h1 | h1 <;> rw [h1] <;> decide

lemma unitFindings_noErrors (unitIds seen : List String)
    (u : KnowledgeUnit) (hid : u.id ≠ "")
    (hpath : u.path ≠ none ∧ u.path ≠ some "")
    (hint : u.intent ≠ "") (hscope : validScopes.contains u.scope = true) :
    (unitFindings unitIds seen u).1 = [] := by
  simp only [unitFindings, if_neg hid]
  have h1 : ¬(u.path = none ∨ u.path = some "") := by
    intro hc
    rcases hc with hc | hc
    · exact hpath.1 hc
    · exact hpath.2 hc
  rw [if_neg h1, if_neg hint, if_neg (scope_contains_ne_empty u.scope hscope)]
  have h2 : ¬((!validScopes.contains u.scope) = true) := by
    rw [hscope]
    decide
  rw [if_neg h2]
  rfl

lemma validateUnitsAux_noErrors (unitIds : List String) :
    ∀ (units : List KnowledgeUnit) (seen : List String),
      (∀ u ∈ units, u.id ≠ "" ∧ (u.path ≠ none ∧ u.path ≠ some "")
        ∧ u.intent ≠ "" ∧ validScopes.contains u.scope = true) →
      (validateUnitsAux unitIds units seen).1 = [] := by
  intro units
  induction units with
  | nil => intro seen _; rfl
  | cons u rest ih =>
    intro seen hall
    rcases hall u (List.mem_cons_self _ _) with ⟨h1, h2, h3, h4⟩
    simp only [validateUnitsAux]
    rw [unitFindings_noErrors unitIds seen u h1 h2 h3 h4,
      ih _ (fun v hv => hall v (List.mem_cons_of_mem _ hv))]
    rfl

/-- C6: the warnings of a validation that look like duplicate-id warnings
are exactly one per repeated-id occurrence beyond its first (empty ids
skipped); a manifest whose units all pass the per-unit error checks is
valid no matter how many duplicate ids it has; and a unit with an empty
id contributes exactly the one id-required error and is skipped by every
other per-unit check. -/
theorem claim_C6 :
    (∀ m : KnowledgeManifest,
      (validate m).warnings.filter isDupWarning
        = (repeatedOccurrences (unitIdsOf m.units) []).map dupWarning)
    ∧ (∀ m : KnowledgeManifest,
        m.project ≠ "" → m.units ≠ [] →
        (∀ u ∈ m.units, u.id ≠ "" ∧ (u.path ≠ none ∧ u.path ≠ some "")
          ∧ u.intent ≠ "" ∧ validScopes.contains u.scope = true) →
        (validate m).is_valid = true)
    ∧ (∀ (unitIds seen : List String) (u : KnowledgeUnit)
        (rest : List KnowledgeUnit), u.id = "" →
        validateUnitsAux unitIds (u :: rest) seen
          = ⟨"unit: 'id' is required" ::
               (validateUnitsAux unitIds rest seen).1,
             (validateUnitsAux unitIds rest seen).2⟩) := by
  refine ⟨validate_dupFilter, ?_, ?_⟩
  · intro m hproj hunits hall
    show (validateCore m).is_valid = true
    simp only [validateCore, ValidationResult.is_valid]
    rw [validateUnitsAux_noErrors _ _ _ hall]
    simp [hproj, hunits]
  · intro unitIds seen u rest hid
    simp [validateUnitsAux, unitFindings, hid]

/-- A manifest with two units of the same id a, both passing every
per-unit error check. -/
def dupIdManifest : KnowledgeManifest :=
  { project := "p"
    version := ""
    kcp_version := some "0.3"
    units := [minimalUnit,
      { id := "a"
        path := some "other.md"
        intent := "other"
        scope := "global"
        audience := ["human"] }] }

/-- C6 witness: the duplicate rules applied to a concrete two-unit
manifest with a repeated id. -/
theorem claim_C6_w :
    (validate dupIdManifest).warnings.filter isDupWarning
      = [dupWarning "a"]
    ∧ (validate dupIdManifest).is_valid = true := by
  have h1 := claim_C6.1 dupIdManifest
  have h2 := claim_C6.2.1 dupIdManifest (by decide) (by decide) (by decide)
  refine ⟨?_, h2⟩
  rw [h1]
  decide

end KCP
